import Mathlib

/-!
Verification of the salvage_program repository: a shallow embedding of the
file-copy / hash-verify pipeline of `src/file_operations/file_handler.py`
and of the disk lifecycle helpers of `src/disk_operations/disk_manager.py`,
together with proofs of the behavioural claims about them.

The external world (the filesystem, the exit codes and outputs of the
shelled-out tools `mount`, `fsck.ext4`, `ntfsfix`, `lsblk`) is modelled by
explicit parameters: the filesystem as an association list from path to
byte contents, each external tool as a function from its arguments to an
exit code and captured output.  Python exceptions that the code catches
are modelled by `Option`/`Except` results of the corresponding model
functions.
-/

namespace Salvage

/-! ## Generic helpers: Python `dict` assignment/lookup and `str.split` -/

/-- Lookup in an association list, as Python `d[k]` / `d.get(k)`. -/
def alistGet {α : Type} (d : List (String × α)) (k : String) : Option α :=
  (d.find? (fun p => p.1 == k)).map (fun p => p.2)

/-- Python `d[k] = v` on a dict: overwrite the value in place when the key
is present, append the new binding otherwise.  (Keys of a Python dict are
unique, so replacing the first occurrence models assignment exactly.) -/
def alistInsert {α : Type} : List (String × α) → String → α → List (String × α)
  | [], k, v => [(k, v)]
  | p :: ps, k, v => if p.1 == k then (k, v) :: ps else p :: alistInsert ps k v

/-- Python `s.split(c)` for a single-character separator: the list of
(possibly empty) runs between occurrences of `c`.  Always nonempty. -/
def splitOnChar (c : Char) : List Char → List (List Char)
  | [] => [[]]
  | x :: xs =>
    match splitOnChar c xs with
    | [] => [[]]
    | g :: gs => if x == c then [] :: g :: gs else (x :: g) :: gs

/-- Python `s.strip()`: drop leading and trailing whitespace. -/
def stripChars (cs : List Char) : List Char :=
  ((cs.dropWhile Char.isWhitespace).reverse.dropWhile Char.isWhitespace).reverse

theorem splitOnChar_ne_nil (c : Char) (cs : List Char) : splitOnChar c cs ≠ [] := by
  cases cs with
  | nil => simp [splitOnChar]
  | cons x xs =>
    simp only [splitOnChar]
    cases splitOnChar c xs with
    | nil => simp
    | cons g gs =>
      by_cases h : x == c <;> simp [h]

theorem not_mem_of_mem_splitOnChar (c : Char) (cs : List Char) :
    ∀ g ∈ splitOnChar c cs, c ∉ g := by
  induction cs with
  | nil =>
    intro g hg
    simp [splitOnChar] at hg
    simp [hg]
  | cons x xs ih =>
    intro g hg
    simp only [splitOnChar] at hg
    cases hsp : splitOnChar c xs with
    | nil => exact absurd hsp (splitOnChar_ne_nil c xs)
    | cons g0 gs =>
      rw [hsp] at hg
      by_cases hx : x == c
      · simp [hx] at hg
        rcases hg with h | h | h
        · simp [h]
        · exact ih g (by simp [hsp, h])
        · exact ih g (by simp [hsp, h])
      · simp [hx] at hg
        rcases hg with h | h
        · subst h
          intro hmem
          rcases List.mem_cons.mp hmem with h1 | h1
          · exact hx (by simp [h1])
          · exact ih g0 (by simp [hsp]) h1
        · exact ih g (by simp [hsp, h])

theorem getLastD_mem_of_ne_nil {α : Type} (l : List α) (d : α) (h : l ≠ []) :
    l.getLastD d ∈ l := by
  induction l with
  | nil => exact absurd rfl h
  | cons x xs ih =>
    cases xs with
    | nil => simp [List.getLastD]
    | cons y ys =>
      have := ih (by simp)
      simp only [List.getLastD] at this ⊢
      exact List.mem_cons_of_mem x this

theorem alistGet_insert_self {α : Type} (d : List (String × α)) (k : String) (v : α) :
    alistGet (alistInsert d k v) k = some v := by
  induction d with
  | nil => simp [alistInsert, alistGet, List.find?]
  | cons p ps ih =>
    by_cases hp : p.1 == k
    · simp [alistInsert, hp, alistGet, List.find?]
    · simp only [alistInsert, hp, if_false]
      simpa [alistGet, List.find?, hp] using ih

theorem alistGet_insert_ne {α : Type} (d : List (String × α)) (k k' : String) (v : α)
    (hne : k' ≠ k) : alistGet (alistInsert d k v) k' = alistGet d k' := by
  have hkk : (k == k') = false := by
    simp only [beq_eq_false_iff_ne, ne_eq]
    exact fun hh => hne hh.symm
  induction d with
  | nil => simp [alistInsert, alistGet, List.find?, hkk]
  | cons p ps ih =>
    by_cases hp : p.1 == k
    · have hk : p.1 = k := by simpa using hp
      have hpk' : (p.1 == k') = false := by rw [hk]; exact hkk
      simp [alistInsert, hp, alistGet, List.find?, hkk, hpk']
    · simp only [alistInsert, hp, if_false]
      by_cases hpk : p.1 == k'
      · simp [alistGet, List.find?, hpk]
      · simpa [alistGet, List.find?, hpk] using ih

/-! ## Path helpers (`os.path` as used by the code, POSIX rules) -/

/-- `os.path.basename(p)` / `p.split('/')[-1]`: the text after the last
slash. -/
def path_basename (p : String) : String :=
  String.mk ((splitOnChar '/' p.data).getLastD [])

/-- `os.path.join(a, b)` (POSIX): `b` when `b` is absolute, else `a`
followed by `b` with exactly one separating slash. -/
def path_join (a b : String) : String :=
  if b.data.head? == some '/' then b
  else if a.data.isEmpty || (a.data.getLast? == some '/') then
    String.mk (a.data ++ b.data)
  else
    String.mk (a.data ++ '/' :: b.data)

/-- Index of the last `'.'` in a character list, if any. -/
def lastDotIndex : List Char → Option Nat
  | [] => none
  | c :: cs =>
    match lastDotIndex cs with
    | some i => some (i + 1)
    | none => if c == '.' then some 0 else none

/-- `os.path.splitext(p)[1]`: the extension including the dot, taken at the
last dot of the basename, empty when the basename has no dot or only
leading dots before it. -/
def splitext_ext (p : String) : String :=
  let cs := (splitOnChar '/' p.data).getLastD []
  match lastDotIndex cs with
  | none => ""
  | some i =>
    if (cs.take i).any (fun c => !(c == '.')) then String.mk (cs.drop i) else ""

/-- Python `s.lower()` (per-character; the extensions involved are ASCII). -/
def lowerStr (s : String) : String :=
  String.mk (s.data.map Char.toLower)

/-! ## Data model of `src/file_operations/file_handler.py`

The filesystem visible to `FileHandler` is an association list from path to
byte contents (a file's bytes as a list of naturals `< 256`); a missing key
models a nonexistent path, and the exceptions the Python code catches are
the `none` cases of lookups. -/

def FileSystem : Type := List (String × List Nat)

def fsLookup (fs : FileSystem) (p : String) : Option (List Nat) :=
  alistGet fs p

def fsWrite (fs : FileSystem) (p : String) (data : List Nat) : FileSystem :=
  alistInsert fs p data

structure FileAttributes where
  creation_time : String
  modified_time : String
  permissions : String
  owner : String
  is_hidden : Bool
deriving Repr, DecidableEq

structure File where
  path : String
  size : Nat
  attributes : Option FileAttributes
  status : String
  is_corrupted : Bool
deriving Repr, DecidableEq

structure FileError where
  error_code : Nat
  message : String
deriving Repr, DecidableEq

def FILE_001 : Nat := 1
def FILE_002 : Nat := 2
def FILE_003 : Nat := 3
def FILE_004 : Nat := 4
def FILE_005 : Nat := 5
def FILE_006 : Nat := 6

/-- `FileHandler.verify_copy`, parametric in the digest function modelling
`hashlib.md5` over the streamed contents: `False` when either path is
missing (the raised `FileNotFoundError` is caught by the enclosing
`except`), `False` on a size or digest mismatch, `True` otherwise. -/
def verify_copy (md5 : List Nat → String) (fs : FileSystem)
    (source destination : String) : Bool :=
  match fsLookup fs source with
  | none => false
  | some src_data =>
    match fsLookup fs destination with
    | none => false
    | some dest_data =>
      if src_data.length ≠ dest_data.length then false
      else if md5 src_data ≠ md5 dest_data then false
      else true

/-- The destination path `copy_files` writes a file to:
`os.path.join(destination, os.path.basename(file.path))`. -/
def destPathOf (destination : String) (f : File) : String :=
  path_join destination (path_basename f.path)

/-- `FileHandler.copy_files`: for each file in order, read its contents and
write them at `os.path.join(destination, os.path.basename(file.path))`; a
failing read (`shutil.copy2` raising) aborts the loop and returns `False`,
leaving earlier writes in place. -/
def copy_files (fs : FileSystem) (files : List File) (destination : String) :
    FileSystem × Bool :=
  match files with
  | [] => (fs, true)
  | f :: rest =>
    match fsLookup fs f.path with
    | none => (fs, false)
    | some data =>
      copy_files (fsWrite fs (destPathOf destination f) data) rest destination

/-- The magic-number table of `handle_corrupted_files`, in source order. -/
def magic_numbers : List (List Nat × String) :=
  [([0x89, 0x50, 0x4E, 0x47, 0x0D, 0x0A, 0x1A, 0x0A], "PNG"),
   ([0xFF, 0xD8, 0xFF], "JPEG"),
   ([0x47, 0x49, 0x46, 0x38, 0x37, 0x61], "GIF"),
   ([0x47, 0x49, 0x46, 0x38, 0x39, 0x61], "GIF"),
   ([0x25, 0x50, 0x44, 0x46], "PDF"),
   ([0x50, 0x4B, 0x03, 0x04], "ZIP"),
   ([0x50, 0x4B, 0x05, 0x06], "ZIP"),
   ([0x50, 0x4B, 0x07, 0x08], "ZIP")]

/-- `header.startswith(magic)`: the first matching magic's type, scanning
the table in order. -/
def findMagicType (header : List Nat) : Option String :=
  (magic_numbers.find? (fun m => header.take m.1.length == m.1)).map (fun m => m.2)

/-- The `expected_extensions` table distinguishes a single expected
extension from a list of them, as the Python dict holds both `str` and
`list` values. -/
inductive ExpectedExt where
  | single : String → ExpectedExt
  | several : List String → ExpectedExt
deriving Repr, DecidableEq

def expected_extensions : List (String × ExpectedExt) :=
  [("PNG", .single ".png"),
   ("JPEG", .several [".jpg", ".jpeg"]),
   ("GIF", .single ".gif"),
   ("PDF", .single ".pdf"),
   ("ZIP", .single ".zip")]

/-- `ext in expected` / `ext == expected` depending on the dict value's
shape. -/
def extMatches : ExpectedExt → String → Bool
  | .single e, ext => ext == e
  | .several es, ext => es.contains ext

def lookupExpected (ftype : String) : Option ExpectedExt :=
  (expected_extensions.find? (fun p => p.1 == ftype)).map (fun p => p.2)

def renderExpected : ExpectedExt → String
  | .single e => e
  | .several es => String.intercalate ", " es

/-- The per-file body of the `handle_corrupted_files` loop: the updated
file record and the errors it contributes.  A missing file raises
`FileNotFoundError`, caught by the per-file `except` which records a
FILE_006 error and marks the file corrupted; a zero-length file and a
magic/extension mismatch do the same.  (The trailing full read of the file
cannot fail in this model, matching a healthy disk.) -/
def checkFile (fs : FileSystem) (f : File) : File × List FileError :=
  match fsLookup fs f.path with
  | none =>
    ({ f with is_corrupted := true },
     [⟨FILE_006, "ファイル " ++ f.path ++ (" のチェック中にエラーが発生しました: ファイル "
        ++ f.path ++ " が見つかりません")⟩])
  | some data =>
    if data.length = 0 then
      ({ f with is_corrupted := true },
       [⟨FILE_006, "ファイル " ++ f.path ++ " は空ファイルです"⟩])
    else
      match findMagicType (data.take 8) with
      | none => (f, [])
      | some ftype =>
        match lookupExpected ftype with
        | none => (f, [])
        | some expected =>
          if extMatches expected (lowerStr (splitext_ext f.path)) then (f, [])
          else
            ({ f with is_corrupted := true },
             [⟨FILE_006, "ファイル " ++ f.path ++ (" の拡張子が不正です（期待: "
                ++ renderExpected expected ++ ", 実際: "
                ++ lowerStr (splitext_ext f.path) ++ "）")⟩])

/-- `FileHandler.handle_corrupted_files`: each file of the list is checked
independently; the returned pair is the list of (possibly corruption-
flagged) file records and the concatenated error list. -/
def handle_corrupted_files (fs : FileSystem) (files : List File) :
    List File × List FileError :=
  (files.map (fun f => (checkFile fs f).1),
   (files.map (fun f => (checkFile fs f).2)).flatten)

/-! ## Data model of `src/disk_operations/disk_manager.py`

External tools are modelled as functions from their string arguments to a
`ProcResult` (exit code and combined captured output).  `subprocess`
raising `CalledProcessError` corresponds to a nonzero `exitCode`. -/

structure Disk where
  device_path : String
  size : Int
  filesystem : String
  mounted : Bool
  health_status : String
deriving Repr, DecidableEq

structure FilesystemStatus where
  is_consistent : Bool
  details : String
deriving Repr, DecidableEq

structure ProcResult where
  exitCode : Int
  output : String
deriving Repr, DecidableEq

/-- One entry of the `lsblk -J` `"blockdevices"` array, with `none`
modelling an absent JSON key (the `.get(key, default)` / `key in dict`
distinctions the code makes). -/
structure LsblkEntry where
  name : String
  size : String
  fstype : Option String
  mountpointPresent : Bool
  health : Option String
deriving Repr, DecidableEq

/-- Does `l` begin with `pat`? -/
def headMatches {α : Type} [DecidableEq α] (pat l : List α) : Bool :=
  l.take pat.length == pat

/-- Is `pat` a contiguous subsequence of the list? -/
def containsSeq {α : Type} [DecidableEq α] (pat : List α) : List α → Bool
  | [] => pat.isEmpty
  | x :: xs => headMatches pat (x :: xs) || containsSeq pat xs

/-- Python `needle in haystack` on strings. -/
def strContains (haystack needle : String) : Bool :=
  containsSeq needle.data haystack.data

def digitToNat (c : Char) : Nat := c.toNat - '0'.toNat

def natOfDigits (cs : List Char) : Nat :=
  cs.foldl (fun n c => n * 10 + digitToNat c) 0

/-- `float(s)` on the decimal strings `lsblk` sizes use: digits with at
most one dot and at least one digit; `none` models `ValueError`.  The
(nonnegative) value is kept exactly, as a numerator over a power-of-ten
denominator, rather than as a binary float. -/
def parseDecimal (s : String) : Option (Nat × Nat) :=
  match splitOnChar '.' s.data with
  | [ip] =>
    if !ip.isEmpty && ip.all Char.isDigit then some (natOfDigits ip, 1)
    else none
  | [ip, fp] =>
    if (!ip.isEmpty || !fp.isEmpty) && ip.all Char.isDigit && fp.all Char.isDigit then
      some (natOfDigits ip * 10 ^ fp.length + natOfDigits fp, 10 ^ fp.length)
    else none
  | _ => none

def size_units : List (Char × Nat) :=
  [('K', 1024), ('M', 1024 ^ 2), ('G', 1024 ^ 3), ('T', 1024 ^ 4)]

/-- `DiskManager._parse_size`: `float(size_str[:-1])` (a `ValueError`
aborts), then the unit multiplier looked up by the uppercased last
character (a `KeyError` aborts), then `int(size * unit)`, which truncates
the nonnegative product towards zero. -/
def parse_size (size_str : String) : Except String Int :=
  match parseDecimal (String.mk size_str.data.dropLast) with
  | none => .error "ValueError"
  | some q =>
    match size_str.data.getLast? with
    | none => .error "IndexError"
    | some c =>
      match (size_units.find? (fun u => u.1 == c.toUpper)).map (fun u => u.2) with
      | none => .error "KeyError"
      | some m => .ok ((q.1 * m) / q.2 : Nat)

/-- The record built for one `lsblk` entry once its size parsed. -/
def diskOfEntry (e : LsblkEntry) (sz : Int) : Disk :=
  { device_path := "/dev/" ++ e.name
    size := sz
    filesystem := e.fstype.getD ""
    mounted := e.mountpointPresent
    health_status := e.health.getD "" }

/-- `DiskManager.detect_disks` on a parsed `lsblk -J` listing: one `Disk`
per entry, in order; an unparsable size raises out of the loop, so nothing
is returned. -/
def detect_disks : List LsblkEntry → Except String (List Disk)
  | [] => .ok []
  | e :: es =>
    match parse_size e.size with
    | .error msg => .error msg
    | .ok sz =>
      match detect_disks es with
      | .error msg => .error msg
      | .ok ds => .ok (diskOfEntry e sz :: ds)

/-- `DiskManager.mount_disk`, with the external `mount` call modelled by
`mountExit` (device path and mount point to exit code) and the set of
existing directories threaded explicitly: `os.makedirs(mount_point,
exist_ok=True)` then `subprocess.run(..., check=True)`, whose
`CalledProcessError` on a nonzero exit is caught and turned into `False`. -/
def mount_disk (mountExit : String → String → Int) (dirs : List String)
    (disk : Disk) : List String × Bool :=
  let mount_point := "/mnt/" ++ String.mk ((splitOnChar '/' disk.device_path.data).getLastD [])
  let dirs2 := if dirs.contains mount_point then dirs else mount_point :: dirs
  if mountExit disk.device_path mount_point = 0 then (dirs2, true) else (dirs2, false)

/-- `DiskManager.check_filesystem`, with `fsck.ext4 -n` and `ntfsfix`
modelled by functions from the device path to their `ProcResult`. -/
def check_filesystem (fsckExt4 ntfsfixTool : String → ProcResult) (disk : Disk) :
    FilesystemStatus :=
  if disk.filesystem == "ext4" then
    let r := fsckExt4 disk.device_path
    if r.exitCode = 0 then
      if strContains r.output "clean" then
        ⟨true, "ファイルシステムは整合性が取れています"⟩
      else
        ⟨false, r.output⟩
    else
      ⟨false, r.output⟩
  else if disk.filesystem == "ntfs" then
    let r := ntfsfixTool disk.device_path
    if r.exitCode = 0 then
      ⟨true, "ファイルシステムは整合性が取れています"⟩
    else
      ⟨false, r.output⟩
  else
    ⟨false, "未対応のファイルシステムです"⟩

/-- The `line.split(":", 1)` decomposition of one `smartctl` output line:
`none` when the line has no colon, otherwise the stripped text before the
first colon paired with the stripped text after it. -/
def kvOfLine (line : String) : Option (String × String) :=
  match splitOnChar ':' line.data with
  | [] => none
  | [_] => none
  | key :: rest =>
    some (String.mk (stripChars key),
          String.mk (stripChars (String.intercalate ":" (rest.map String.mk)).data))

/-- `DiskManager._parse_smart_status`: fold the colon-keyed lines of the
output into a dict. -/
def parse_smart_status (output : String) : List (String × String) :=
  ((splitOnChar '\n' output.data).map String.mk).foldl
    (fun d line =>
      match kvOfLine line with
      | none => d
      | some kv => alistInsert d kv.1 kv.2)
    []

/-! ## Claims about `FileHandler.verify_copy` -/

/-- Claim C1: `FileHandler.verify_copy(source, destination)` returns `True`
if and only if both files exist, their sizes are equal, and their streaming
MD5 content hashes are equal; in every other case (missing source or
destination, or any exception) it returns `False` rather than raising. -/
theorem verify_copy_true_iff (md5 : List Nat → String) (fs : FileSystem)
    (source destination : String) :
    verify_copy md5 fs source destination = true ↔
      ∃ a b, fsLookup fs source = some a ∧ fsLookup fs destination = some b ∧
        a.length = b.length ∧ md5 a = md5 b := by
  unfold verify_copy
  cases hs : fsLookup fs source with
  | none => simp
  | some a =>
    cases hd : fsLookup fs destination with
    | none => simp
    | some b =>
      by_cases hl : a.length = b.length
      · by_cases hh : md5 a = md5 b
        · simp [hl, hh]
        · simp [hl, hh]
      · simp [hl]

/-! ## Claims about `DiskManager.mount_disk` and `check_filesystem` -/

/-- Claim C3: `mount_disk` creates the mount point `/mnt/<last path
component of device_path>` when missing (and leaves the directory set
unchanged when it already exists), and returns `True` exactly when the
external mount process exits with code zero, `False` (without raising)
otherwise. -/
theorem mount_disk_spec (mountExit : String → String → Int) (dirs : List String)
    (disk : Disk) :
    ("/mnt/" ++ String.mk ((splitOnChar '/' disk.device_path.data).getLastD []))
        ∈ (mount_disk mountExit dirs disk).1 ∧
    (("/mnt/" ++ String.mk ((splitOnChar '/' disk.device_path.data).getLastD []))
        ∈ dirs → (mount_disk mountExit dirs disk).1 = dirs) ∧
    ((mount_disk mountExit dirs disk).2 = true ↔
      mountExit disk.device_path
        ("/mnt/" ++ String.mk ((splitOnChar '/' disk.device_path.data).getLastD [])) = 0) := by
  unfold mount_disk
  by_cases hmem : dirs.contains
      ("/mnt/" ++ String.mk ((splitOnChar '/' disk.device_path.data).getLastD []))
  · by_cases hexit : mountExit disk.device_path
        ("/mnt/" ++ String.mk ((splitOnChar '/' disk.device_path.data).getLastD [])) = 0
    · simp_all [List.contains, List.elem_eq_mem]
    · simp_all [List.contains, List.elem_eq_mem]
  · by_cases hexit : mountExit disk.device_path
        ("/mnt/" ++ String.mk ((splitOnChar '/' disk.device_path.data).getLastD [])) = 0
    · simp_all [List.contains, List.elem_eq_mem]
    · simp_all [List.contains, List.elem_eq_mem]

/-- Closed witness for C3. -/
theorem mount_disk_spec_witness :
    ("/mnt/" ++ String.mk ((splitOnChar '/' ("/dev/sda" : String).data).getLastD []))
        ∈ (mount_disk (fun _ _ => 0) [] ⟨"/dev/sda", 0, "ext4", false, ""⟩).1 ∧
    (("/mnt/" ++ String.mk ((splitOnChar '/' ("/dev/sda" : String).data).getLastD []))
        ∈ ([] : List String) →
      (mount_disk (fun _ _ => 0) [] ⟨"/dev/sda", 0, "ext4", false, ""⟩).1 = []) ∧
    ((mount_disk (fun _ _ => 0) [] ⟨"/dev/sda", 0, "ext4", false, ""⟩).2 = true ↔
      (fun (_ _ : String) => (0 : Int)) "/dev/sda"
        ("/mnt/" ++ String.mk ((splitOnChar '/' ("/dev/sda" : String).data).getLastD [])) = 0) :=
  mount_disk_spec (fun _ _ => 0) [] ⟨"/dev/sda", 0, "ext4", false, ""⟩

/-- Claim C4: on an `"ext4"` disk, `check_filesystem` reports
`is_consistent = True` iff the checker exits zero with `"clean"` in its
output, and in every other case reports `is_consistent = False` with the
tool's output as the details. -/
theorem check_filesystem_ext4_spec (fsckExt4 ntfsfixTool : String → ProcResult)
    (disk : Disk) (h : disk.filesystem = "ext4") :
    ((check_filesystem fsckExt4 ntfsfixTool disk).is_consistent = true ↔
      ((fsckExt4 disk.device_path).exitCode = 0 ∧
        strContains (fsckExt4 disk.device_path).output "clean" = true)) ∧
    (¬((fsckExt4 disk.device_path).exitCode = 0 ∧
        strContains (fsckExt4 disk.device_path).output "clean" = true) →
      check_filesystem fsckExt4 ntfsfixTool disk =
        ⟨false, (fsckExt4 disk.device_path).output⟩) := by
  unfold check_filesystem
  by_cases hexit : (fsckExt4 disk.device_path).exitCode = 0
  · by_cases hcl : strContains (fsckExt4 disk.device_path).output "clean" = true
    · simp [h, hexit, hcl]
    · simp [h, hexit, hcl]
  · simp [h, hexit]

/-- Closed witness for C4. -/
theorem check_filesystem_ext4_spec_witness :
    (⟨"/dev/sda", 0, "ext4", false, ""⟩ : Disk).filesystem = "ext4" ∧
    (((check_filesystem (fun _ => ⟨0, "volume is clean"⟩) (fun _ => ⟨0, ""⟩)
          ⟨"/dev/sda", 0, "ext4", false, ""⟩).is_consistent = true ↔
      (((fun (_ : String) => (⟨0, "volume is clean"⟩ : ProcResult)) "/dev/sda").exitCode = 0 ∧
        strContains (((fun (_ : String) => (⟨0, "volume is clean"⟩ : ProcResult))
          "/dev/sda").output) "clean" = true)) ∧
    (¬(((fun (_ : String) => (⟨0, "volume is clean"⟩ : ProcResult)) "/dev/sda").exitCode = 0 ∧
        strContains (((fun (_ : String) => (⟨0, "volume is clean"⟩ : ProcResult))
          "/dev/sda").output) "clean" = true) →
      check_filesystem (fun _ => ⟨0, "volume is clean"⟩) (fun _ => ⟨0, ""⟩)
          ⟨"/dev/sda", 0, "ext4", false, ""⟩ =
        ⟨false, ((fun (_ : String) => (⟨0, "volume is clean"⟩ : ProcResult)) "/dev/sda").output⟩)) :=
  ⟨rfl, check_filesystem_ext4_spec (fun _ => ⟨0, "volume is clean"⟩) (fun _ => ⟨0, ""⟩)
    ⟨"/dev/sda", 0, "ext4", false, ""⟩ rfl⟩

/-- Claim C5: on a disk whose filesystem is neither `"ext4"` nor `"ntfs"`,
`check_filesystem` consults no external tool (its result does not depend on
either tool) and reports `is_consistent = False`. -/
theorem check_filesystem_unsupported (f1 f2 g1 g2 : String → ProcResult) (disk : Disk)
    (h1 : disk.filesystem ≠ "ext4") (h2 : disk.filesystem ≠ "ntfs") :
    check_filesystem f1 f2 disk = check_filesystem g1 g2 disk ∧
    (check_filesystem f1 f2 disk).is_consistent = false := by
  unfold check_filesystem
  simp [h1, h2]

/-- Closed witness for C5. -/
theorem check_filesystem_unsupported_witness :
    (⟨"/dev/sda", 0, "vfat", false, ""⟩ : Disk).filesystem ≠ "ext4" ∧
    (⟨"/dev/sda", 0, "vfat", false, ""⟩ : Disk).filesystem ≠ "ntfs" ∧
    (check_filesystem (fun _ => ⟨0, "a"⟩) (fun _ => ⟨0, "b"⟩)
        ⟨"/dev/sda", 0, "vfat", false, ""⟩ =
      check_filesystem (fun _ => ⟨1, "c"⟩) (fun _ => ⟨2, "d"⟩)
        ⟨"/dev/sda", 0, "vfat", false, ""⟩ ∧
    (check_filesystem (fun _ => ⟨0, "a"⟩) (fun _ => ⟨0, "b"⟩)
        ⟨"/dev/sda", 0, "vfat", false, ""⟩).is_consistent = false) :=
  ⟨by decide, by decide,
    check_filesystem_unsupported (fun _ => ⟨0, "a"⟩) (fun _ => ⟨0, "b"⟩)
      (fun _ => ⟨1, "c"⟩) (fun _ => ⟨2, "d"⟩) ⟨"/dev/sda", 0, "vfat", false, ""⟩
      (by decide) (by decide)⟩

/-! ## Claim about `FileHandler.handle_corrupted_files` -/

theorem checkFile_marks (fs : FileSystem) (f : File) (data : List Nat)
    (hex : fsLookup fs f.path = some data)
    (hbad : data.length = 0 ∨
      ∃ ftype expected, findMagicType (data.take 8) = some ftype ∧
        lookupExpected ftype = some expected ∧
        extMatches expected (lowerStr (splitext_ext f.path)) = false) :
    (checkFile fs f).1.is_corrupted = true ∧
    ∃ e ∈ (checkFile fs f).2, e.error_code = FILE_006 ∧
      ∃ t, e.message = "ファイル " ++ f.path ++ t := by
  unfold checkFile
  rw [hex]
  by_cases hlen : data.length = 0
  · simp only [hlen, if_true]
    exact ⟨trivial, ⟨FILE_006, "ファイル " ++ f.path ++ " は空ファイルです"⟩,
      List.mem_singleton.mpr rfl, rfl, " は空ファイルです", rfl⟩
  · rcases hbad with h | ⟨ftype, expected, h1, h2, h3⟩
    · exact absurd h hlen
    · simp only [hlen, if_false, h1, h2, h3, Bool.false_eq_true]
      exact ⟨trivial, _, List.mem_singleton.mpr rfl, rfl,
        " の拡張子が不正です（期待: " ++ renderExpected expected ++ ", 実際: "
          ++ lowerStr (splitext_ext f.path) ++ "）", rfl⟩

/-- Claim C2: every file of the input list that exists and is either
zero-length or whose leading bytes match a known magic number with an
expected extension different from the file's lowercased extension comes out
of `handle_corrupted_files` with `is_corrupted = True`, and the returned
list contains a `FileError` with code `FILE_006` naming that file. -/
theorem handle_corrupted_files_spec (fs : FileSystem) (files : List File)
    (i : Nat) (hi : i < files.length) (data : List Nat)
    (hex : fsLookup fs (files.get ⟨i, hi⟩).path = some data)
    (hbad : data.length = 0 ∨
      ∃ ftype expected, findMagicType (data.take 8) = some ftype ∧
        lookupExpected ftype = some expected ∧
        extMatches expected (lowerStr (splitext_ext (files.get ⟨i, hi⟩).path)) = false) :
    (∃ f', (handle_corrupted_files fs files).1[i]? = some f' ∧ f'.is_corrupted = true) ∧
    ∃ e ∈ (handle_corrupted_files fs files).2, e.error_code = FILE_006 ∧
      ∃ t, e.message = "ファイル " ++ (files.get ⟨i, hi⟩).path ++ t := by
  obtain ⟨hc, e, he, hcode, t, hmsg⟩ := checkFile_marks fs (files.get ⟨i, hi⟩) data hex hbad
  constructor
  · refine ⟨(checkFile fs (files.get ⟨i, hi⟩)).1, ?_, hc⟩
    unfold handle_corrupted_files
    rw [List.getElem?_map, List.getElem?_eq_getElem hi]
    simp
  · refine ⟨e, ?_, hcode, t, hmsg⟩
    unfold handle_corrupted_files
    apply List.mem_flatten.mpr
    refine ⟨(checkFile fs (files.get ⟨i, hi⟩)).2, ?_, he⟩
    exact List.mem_map.mpr ⟨files.get ⟨i, hi⟩, List.get_mem files i hi, rfl⟩

/-- Closed witness for C2: a PDF-headed file named `a.txt`. -/
theorem handle_corrupted_files_spec_witness :
    (0 : Nat) < ([⟨"a.txt", 4, none, "normal", false⟩] : List File).length ∧
    fsLookup [("a.txt", [0x25, 0x50, 0x44, 0x46])] "a.txt" = some [0x25, 0x50, 0x44, 0x46] ∧
    ((∃ f', (handle_corrupted_files [("a.txt", [0x25, 0x50, 0x44, 0x46])]
        [⟨"a.txt", 4, none, "normal", false⟩]).1[0]? = some f' ∧ f'.is_corrupted = true) ∧
    ∃ e ∈ (handle_corrupted_files [("a.txt", [0x25, 0x50, 0x44, 0x46])]
        [⟨"a.txt", 4, none, "normal", false⟩]).2, e.error_code = FILE_006 ∧
      ∃ t, e.message = "ファイル " ++ "a.txt" ++ t) :=
  ⟨by decide, by decide,
    handle_corrupted_files_spec [("a.txt", [0x25, 0x50, 0x44, 0x46])]
      [⟨"a.txt", 4, none, "normal", false⟩] 0 (by decide) [0x25, 0x50, 0x44, 0x46]
      (by decide)
      (Or.inr ⟨"PDF", .single ".pdf", by decide, by decide, by decide⟩)⟩

/-! ## Claim about `DiskManager._parse_smart_status` -/

/-- The mapping the spec describes for `_parse_smart_status`: the value at
`k` is the stripped text after the first colon of the last line whose
stripped text before the first colon is `k`; colon-free lines contribute
nothing. -/
def smartLookupSpec (output : String) (k : String) : Option String :=
  (((splitOnChar '\n' output.data).map String.mk).filterMap kvOfLine).reverse.find?
      (fun p => p.1 == k) |>.map (fun p => p.2)

theorem foldl_smart_get (lines : List String) (d : List (String × String)) (k : String) :
    alistGet (lines.foldl
        (fun d line =>
          match kvOfLine line with
          | none => d
          | some kv => alistInsert d kv.1 kv.2) d) k =
      match (lines.filterMap kvOfLine).reverse.find? (fun p => p.1 == k) with
      | some p => some p.2
      | none => alistGet d k := by
  induction lines generalizing d with
  | nil => simp
  | cons l ls ih =>
    simp only [List.foldl_cons, List.filterMap_cons]
    cases hkv : kvOfLine l with
    | none => simpa using ih d
    | some kv =>
      simp only [List.reverse_cons, List.find?_append]
      rw [ih (alistInsert d kv.1 kv.2)]
      cases hf : (ls.filterMap kvOfLine).reverse.find? (fun p => p.1 == k) with
      | some p => simp
      | none =>
        by_cases hk : kv.1 == k
        · have hk' : kv.1 = k := by simpa using hk
          simp [List.find?, hk, Option.or]
          rw [← hk']
          exact alistGet_insert_self d kv.1 kv.2
        · have hk' : k ≠ kv.1 := by
            intro hh
            exact hk (by simp [hh])
          simp [List.find?, hk, Option.or]
          exact alistGet_insert_ne d kv.1 k kv.2 hk'

/-- Claim C7: `_parse_smart_status` maps, for each line with at least one
colon, the stripped text before the first colon to the stripped text after
it, later lines with the same key overwriting earlier ones, with no entry
for colon-free lines. -/
theorem parse_smart_status_spec (output : String) (k : String) :
    alistGet (parse_smart_status output) k = smartLookupSpec output k := by
  unfold parse_smart_status smartLookupSpec
  rw [foldl_smart_get]
  cases hf : (((splitOnChar '\n' output.data).map String.mk).filterMap kvOfLine).reverse.find?
      (fun p => p.1 == k) with
  | some p => simp
  | none => simp [alistGet]

/-! ## Claims about `DiskManager.detect_disks` and `_parse_size` -/

/-- Claim C6: for every entry of the `"blockdevices"` array, `detect_disks`
returns exactly one `Disk` whose `device_path` is `"/dev/"` plus the
entry's name, whose size is the parsed size string, whose filesystem is the
entry's fstype (empty when absent), whose `mounted` is `True` exactly when
the entry reports a mount point, and whose `health_status` is the entry's
health field (empty when absent). -/
theorem detect_disks_spec (entries : List LsblkEntry) (ds : List Disk)
    (h : detect_disks entries = .ok ds) :
    ds.length = entries.length ∧
    ∀ i (hi : i < entries.length), ∃ sz,
      parse_size (entries.get ⟨i, hi⟩).size = .ok sz ∧
      ds[i]? = some
        { device_path := "/dev/" ++ (entries.get ⟨i, hi⟩).name
          size := sz
          filesystem := ((entries.get ⟨i, hi⟩).fstype).getD ""
          mounted := (entries.get ⟨i, hi⟩).mountpointPresent
          health_status := ((entries.get ⟨i, hi⟩).health).getD "" } := by
  induction entries generalizing ds with
  | nil =>
    simp only [detect_disks] at h
    cases h
    simp
  | cons e es ih =>
    simp only [detect_disks] at h
    cases hp : parse_size e.size with
    | error msg => rw [hp] at h; cases h
    | ok sz =>
      rw [hp] at h
      cases hd : detect_disks es with
      | error msg => rw [hd] at h; cases h
      | ok ds' =>
        rw [hd] at h
        cases h
        obtain ⟨hlen, hidx⟩ := ih ds' hd
        constructor
        · simpa using hlen
        · intro i hi
          cases i with
          | zero =>
            exact ⟨sz, hp, by simp [diskOfEntry]⟩
          | succ n =>
            obtain ⟨sz', hp', hd'⟩ := hidx n (by simpa using hi)
            exact ⟨sz', hp', by simpa using hd'⟩

/-- Closed witness for C6. -/
theorem detect_disks_spec_witness :
    detect_disks [⟨"sda", "1K", some "ext4", true, some "healthy"⟩] =
      .ok [⟨"/dev/sda", 1024, "ext4", true, "healthy"⟩] ∧
    ([⟨"/dev/sda", 1024, "ext4", true, "healthy"⟩] : List Disk).length =
      ([⟨"sda", "1K", some "ext4", true, some "healthy"⟩] : List LsblkEntry).length ∧
    ∀ i (hi : i < ([⟨"sda", "1K", some "ext4", true, some "healthy"⟩] : List LsblkEntry).length),
      ∃ sz,
      parse_size (([⟨"sda", "1K", some "ext4", true, some "healthy"⟩] :
          List LsblkEntry).get ⟨i, hi⟩).size = .ok sz ∧
      ([⟨"/dev/sda", 1024, "ext4", true, "healthy"⟩] : List Disk)[i]? = some
        { device_path := "/dev/" ++ (([⟨"sda", "1K", some "ext4", true, some "healthy"⟩] :
              List LsblkEntry).get ⟨i, hi⟩).name
          size := sz
          filesystem := ((([⟨"sda", "1K", some "ext4", true, some "healthy"⟩] :
              List LsblkEntry).get ⟨i, hi⟩).fstype).getD ""
          mounted := (([⟨"sda", "1K", some "ext4", true, some "healthy"⟩] :
              List LsblkEntry).get ⟨i, hi⟩).mountpointPresent
          health_status := ((([⟨"sda", "1K", some "ext4", true, some "healthy"⟩] :
              List LsblkEntry).get ⟨i, hi⟩).health).getD "" } := by
  have h : detect_disks [⟨"sda", "1K", some "ext4", true, some "healthy"⟩] =
      .ok [⟨"/dev/sda", 1024, "ext4", true, "healthy"⟩] := by rfl
  exact ⟨h, detect_disks_spec [⟨"sda", "1K", some "ext4", true, some "healthy"⟩]
    [⟨"/dev/sda", 1024, "ext4", true, "healthy"⟩] h⟩

/-- The claim's condition on a size string: its final character, uppercased,
is not one of the unit keys `K`, `M`, `G`, `T`. -/
def badSizeUnit (s : String) : Bool :=
  match s.data.getLast? with
  | none => false
  | some c => !(size_units.any (fun u => u.1 == c.toUpper))

/-- Claim C10: `_parse_size` raises on any size string whose uppercased
final character is not a known unit (such as the `"0B"` the listing tool
can report), and `detect_disks` therefore raises, returning no list, when
any entry carries such a size string. -/
theorem parse_size_partial (s : String) (hne : s ≠ "") (hbad : badSizeUnit s = true) :
    (∃ msg, parse_size s = .error msg) ∧
    ∀ entries : List LsblkEntry, (∃ e ∈ entries, e.size = s) →
      ∃ msg, detect_disks entries = .error msg := by
  have herr : ∃ msg, parse_size s = .error msg := by
    unfold parse_size
    cases hpd : parseDecimal (String.mk s.data.dropLast) with
    | none => exact ⟨"ValueError", rfl⟩
    | some q =>
      cases hlast : s.data.getLast? with
      | none =>
        obtain ⟨cs⟩ := s
        cases cs with
        | nil => exact absurd rfl hne
        | cons c cs' => simp at hlast
      | some c =>
        unfold badSizeUnit at hbad
        rw [hlast] at hbad
        have hnone : (size_units.find? (fun u => u.1 == c.toUpper)) = none := by
          rw [List.find?_eq_none]
          intro u hu hpu
          have : size_units.any (fun u => u.1 == c.toUpper) = true :=
            List.any_eq_true.mpr ⟨u, hu, hpu⟩
          simp [this] at hbad
        exact ⟨"KeyError", by simp [hnone]⟩
  refine ⟨herr, ?_⟩
  intro entries
  induction entries with
  | nil => rintro ⟨e, he, _⟩; cases he
  | cons e es ih =>
    rintro ⟨f, hf, hfs⟩
    rcases List.mem_cons.mp hf with hf | hf
    · subst hf
      obtain ⟨msg, hmsg⟩ := herr
      rw [← hfs] at hmsg
      exact ⟨msg, by simp only [detect_disks, hmsg]⟩
    · cases hp : parse_size e.size with
      | error msg => exact ⟨msg, by simp only [detect_disks, hp]⟩
      | ok sz =>
        obtain ⟨msg, hmsg⟩ := ih ⟨f, hf, hfs⟩
        exact ⟨msg, by simp only [detect_disks, hp, hmsg]⟩

/-- Closed witness for C10, at the byte-suffixed size string `"0B"`. -/
theorem parse_size_partial_witness :
    ("0B" : String) ≠ "" ∧ badSizeUnit "0B" = true ∧
    ((∃ msg, parse_size "0B" = .error msg) ∧
      ∀ entries : List LsblkEntry, (∃ e ∈ entries, e.size = "0B") →
        ∃ msg, detect_disks entries = .error msg) :=
  ⟨by decide, by decide, parse_size_partial "0B" (by decide) (by decide)⟩

/-! ## Claims about `FileHandler.copy_files` -/

theorem fsLookup_write (fs : FileSystem) (p q : String) (data : List Nat) :
    fsLookup (fsWrite fs p data) q = if q = p then some data else fsLookup fs q := by
  by_cases h : q = p
  · rw [h, if_pos rfl]
    exact alistGet_insert_self fs p data
  · rw [if_neg h]
    exact alistGet_insert_ne fs p q data h

theorem basename_no_slash (p : String) : '/' ∉ (path_basename p).data := by
  unfold path_basename
  exact not_mem_of_mem_splitOnChar '/' p.data _
    (getLastD_mem_of_ne_nil _ _ (splitOnChar_ne_nil '/' p.data))

theorem basename_head_ne_slash (p : String) :
    ((path_basename p).data.head? == some '/') = false := by
  have h := basename_no_slash p
  cases hc : (path_basename p).data with
  | nil => rfl
  | cons c cs =>
    rw [hc] at h
    have hccs : c ≠ '/' := fun hh => h (by simp [hh])
    simp only [List.head?_cons, beq_eq_false_iff_ne, ne_eq, Option.some.injEq]
    exact hccs

theorem path_join_right_inj (a b1 b2 : String)
    (h1 : (b1.data.head? == some '/') = false)
    (h2 : (b2.data.head? == some '/') = false)
    (heq : path_join a b1 = path_join a b2) : b1 = b2 := by
  unfold path_join at heq
  rw [h1, h2] at heq
  simp only [Bool.false_eq_true, if_false] at heq
  cases hb : a.data.isEmpty || (a.data.getLast? == some '/') with
  | true =>
    rw [hb, if_pos rfl, if_pos rfl] at heq
    have hd : a.data ++ b1.data = a.data ++ b2.data := congrArg String.data heq
    have hbb := List.append_cancel_left hd
    cases b1; cases b2; exact congrArg String.mk hbb
  | false =>
    rw [hb] at heq
    simp only [Bool.false_eq_true, if_false] at heq
    have hd : a.data ++ '/' :: b1.data = a.data ++ '/' :: b2.data :=
      congrArg String.data heq
    have hbb := (List.cons.inj (List.append_cancel_left hd)).2
    cases b1; cases b2; exact congrArg String.mk hbb

theorem destPathOf_ne_of_basename_ne (dest : String) (f g : File)
    (h : path_basename f.path ≠ path_basename g.path) :
    destPathOf dest f ≠ destPathOf dest g := by
  intro heq
  exact h (path_join_right_inj dest _ _
    (basename_head_ne_slash f.path) (basename_head_ne_slash g.path) heq)

theorem copy_files_success (dest : String) (files : List File) : ∀ (fs : FileSystem),
    (∀ f ∈ files, (fsLookup fs f.path).isSome = true) →
    (copy_files fs files dest).2 = true := by
  induction files with
  | nil => intro fs _; rfl
  | cons f rest ih =>
    intro fs h1
    have hf := h1 f (List.mem_cons_self f rest)
    cases hx : fsLookup fs f.path with
    | none => rw [hx] at hf; simp at hf
    | some data =>
      simp only [copy_files, hx]
      apply ih
      intro g hg
      rw [fsLookup_write]
      by_cases hgp : g.path = destPathOf dest f
      · simp [hgp]
      · rw [if_neg hgp]
        exact h1 g (List.mem_cons_of_mem f hg)

theorem copy_files_mono (dest : String) (files : List File) : ∀ (fs : FileSystem)
    (p : String), (fsLookup fs p).isSome = true →
    (fsLookup (copy_files fs files dest).1 p).isSome = true := by
  induction files with
  | nil => intro fs p h; exact h
  | cons f rest ih =>
    intro fs p h
    cases hx : fsLookup fs f.path with
    | none => simpa only [copy_files, hx] using h
    | some data =>
      simp only [copy_files, hx]
      apply ih
      rw [fsLookup_write]
      by_cases hp : p = destPathOf dest f
      · simp [hp]
      · rw [if_neg hp]; exact h

theorem copy_files_untouched (dest : String) (files : List File) : ∀ (fs : FileSystem)
    (p : String),
    (∀ f ∈ files, (fsLookup fs f.path).isSome = true) →
    (∀ f ∈ files, destPathOf dest f ≠ p) →
    fsLookup (copy_files fs files dest).1 p = fsLookup fs p := by
  induction files with
  | nil => intro fs p _ _; rfl
  | cons f rest ih =>
    intro fs p h1 hsep
    have hf := h1 f (List.mem_cons_self f rest)
    cases hx : fsLookup fs f.path with
    | none => rw [hx] at hf; simp at hf
    | some data =>
      simp only [copy_files, hx]
      rw [ih _ p ?_ ?_]
      · rw [fsLookup_write,
          if_neg (fun hh => hsep f (List.mem_cons_self f rest) hh.symm)]
      · intro g hg
        rw [fsLookup_write]
        by_cases hgp : g.path = destPathOf dest f
        · simp [hgp]
        · rw [if_neg hgp]
          exact h1 g (List.mem_cons_of_mem f hg)
      · exact fun g hg => hsep g (List.mem_cons_of_mem f hg)

theorem copy_files_content (dest : String) (files : List File) : ∀ (fs : FileSystem),
    (∀ f ∈ files, (fsLookup fs f.path).isSome = true) →
    (∀ f ∈ files, ∀ g ∈ files, destPathOf dest g ≠ f.path) →
    ∀ p : String,
    fsLookup (copy_files fs files dest).1 p =
      match files.reverse.find? (fun f => destPathOf dest f == p) with
      | some f => fsLookup fs f.path
      | none => fsLookup fs p := by
  induction files with
  | nil => intro fs _ _ p; rfl
  | cons f rest ih =>
    intro fs h1 hsep p
    have hf := h1 f (List.mem_cons_self f rest)
    cases hx : fsLookup fs f.path with
    | none => rw [hx] at hf; simp at hf
    | some data =>
      have hstep : ∀ g ∈ rest, fsLookup (fsWrite fs (destPathOf dest f) data) g.path =
          fsLookup fs g.path := by
        intro g hg
        rw [fsLookup_write]
        exact if_neg (fun hh => hsep g (List.mem_cons_of_mem f hg) f
          (List.mem_cons_self f rest) hh.symm)
      have h1' : ∀ g ∈ rest,
          (fsLookup (fsWrite fs (destPathOf dest f) data) g.path).isSome = true := by
        intro g hg
        rw [hstep g hg]
        exact h1 g (List.mem_cons_of_mem f hg)
      have hsep' : ∀ g ∈ rest, ∀ g' ∈ rest, destPathOf dest g' ≠ g.path :=
        fun g hg g' hg' => hsep g (List.mem_cons_of_mem f hg) g'
          (List.mem_cons_of_mem f hg')
      simp only [copy_files, hx]
      rw [ih (fsWrite fs (destPathOf dest f) data) h1' hsep' p]
      simp only [List.reverse_cons, List.find?_append]
      cases hfind : rest.reverse.find? (fun g => destPathOf dest g == p) with
      | some g =>
        have hg : g ∈ rest := List.mem_reverse.mp (List.mem_of_find?_eq_some hfind)
        simp only [Option.or_some]
        exact hstep g hg
      | none =>
        simp only [Option.none_or]
        by_cases hdp : destPathOf dest f = p
        · have hbeq : (destPathOf dest f == p) = true := by simp [hdp]
          simp only [List.find?, hbeq]
          rw [fsLookup_write, if_pos hdp.symm, hx]
        · have hbeq : (destPathOf dest f == p) = false := by simp [hdp]
          simp only [List.find?, hbeq]
          rw [fsLookup_write, if_neg (fun hh => hdp hh.symm)]

theorem copy_files_append (dest : String) (pre more : List File) : ∀ (fs : FileSystem),
    (∀ f ∈ pre, (fsLookup fs f.path).isSome = true) →
    copy_files fs (pre ++ more) dest = copy_files (copy_files fs pre dest).1 more dest := by
  induction pre with
  | nil => intro fs _; rfl
  | cons f ps ih =>
    intro fs h1
    have hf := h1 f (List.mem_cons_self f ps)
    cases hx : fsLookup fs f.path with
    | none => rw [hx] at hf; simp at hf
    | some data =>
      simp only [List.cons_append, copy_files, hx]
      apply ih
      intro g hg
      rw [fsLookup_write]
      by_cases hgp : g.path = destPathOf dest f
      · simp [hgp]
      · rw [if_neg hgp]; exact h1 g (List.mem_cons_of_mem f hg)

theorem copy_files_dest_present (dest : String) (pre : List File) : ∀ (fs : FileSystem),
    (∀ f ∈ pre, (fsLookup fs f.path).isSome = true) →
    ∀ f ∈ pre, (fsLookup (copy_files fs pre dest).1 (destPathOf dest f)).isSome = true := by
  induction pre with
  | nil => intro fs _ f hf; cases hf
  | cons g gs ih =>
    intro fs h1 f hf
    have hg := h1 g (List.mem_cons_self g gs)
    cases hx : fsLookup fs g.path with
    | none => rw [hx] at hg; simp at hg
    | some data =>
      simp only [copy_files, hx]
      rcases List.mem_cons.mp hf with hfg | hfg
      · subst hfg
        apply copy_files_mono
        rw [fsLookup_write, if_pos rfl]
        rfl
      · apply ih
        · intro q hq
          rw [fsLookup_write]
          by_cases hqp : q.path = destPathOf dest g
          · simp [hqp]
          · rw [if_neg hqp]; exact h1 q (List.mem_cons_of_mem g hq)
        · exact hfg

/-- Claim C8: `copy_files` writes every file to the destination joined with
only the file's basename, so two input files with the same basename (from
different directories) go to the same destination path, the later copy
overwrites the earlier one, and the call still returns `True`.  `fj` is the
later of the two colliding files and no file after it shares the basename;
the separation hypothesis says no write lands on a source path. -/
theorem copy_files_basename_collision (fs : FileSystem) (dest : String)
    (l1 l2 l3 : List File) (fi fj : File)
    (h1 : ∀ f ∈ l1 ++ fi :: l2 ++ fj :: l3, (fsLookup fs f.path).isSome = true)
    (hsep : ∀ f ∈ l1 ++ fi :: l2 ++ fj :: l3, ∀ g ∈ l1 ++ fi :: l2 ++ fj :: l3,
      destPathOf dest g ≠ f.path)
    (hbase : path_basename fi.path = path_basename fj.path)
    (hdiff : fi.path ≠ fj.path)
    (hlast : ∀ g ∈ l3, path_basename g.path ≠ path_basename fj.path) :
    destPathOf dest fi = destPathOf dest fj ∧
    (copy_files fs (l1 ++ fi :: l2 ++ fj :: l3) dest).2 = true ∧
    fsLookup (copy_files fs (l1 ++ fi :: l2 ++ fj :: l3) dest).1 (destPathOf dest fj) =
      fsLookup fs fj.path := by
  have hdp : destPathOf dest fi = destPathOf dest fj := by
    unfold destPathOf
    rw [hbase]
  refine ⟨hdp, copy_files_success dest _ fs h1, ?_⟩
  rw [copy_files_content dest _ fs h1 hsep (destPathOf dest fj)]
  have hnone : l3.reverse.find? (fun g => destPathOf dest g == destPathOf dest fj)
      = none := by
    rw [List.find?_eq_none]
    intro g hg
    simp only [beq_iff_eq]
    exact destPathOf_ne_of_basename_ne dest g fj (hlast g (List.mem_reverse.mp hg))
  have hself : (destPathOf dest fj == destPathOf dest fj) = true := by simp
  simp [List.reverse_append, List.find?_append, hnone, List.find?, hself]

/-- Claim C9: `copy_files` is not atomic on failure: when the `k`-th file's
copy raises (its source is unreadable) the call returns `False`, the final
filesystem is exactly the one after the first `k-1` copies (which all
succeeded), and every earlier destination file is still present — nothing
is rolled back. -/
theorem copy_files_not_atomic (fs : FileSystem) (dest : String)
    (pre rest : List File) (fk : File)
    (h1 : ∀ f ∈ pre, (fsLookup fs f.path).isSome = true)
    (hmiss : fsLookup fs fk.path = none)
    (hsep : ∀ g ∈ pre, destPathOf dest g ≠ fk.path) :
    (copy_files fs (pre ++ fk :: rest) dest).2 = false ∧
    (copy_files fs (pre ++ fk :: rest) dest).1 = (copy_files fs pre dest).1 ∧
    (copy_files fs pre dest).2 = true ∧
    ∀ f ∈ pre, (fsLookup (copy_files fs (pre ++ fk :: rest) dest).1
        (destPathOf dest f)).isSome = true := by
  have happ := copy_files_append dest pre (fk :: rest) fs h1
  have hfk : fsLookup (copy_files fs pre dest).1 fk.path = none := by
    rw [copy_files_untouched dest pre fs fk.path h1 hsep, hmiss]
  have hstop : copy_files (copy_files fs pre dest).1 (fk :: rest) dest =
      ((copy_files fs pre dest).1, false) := by
    simp only [copy_files, hfk]
  rw [happ, hstop]
  exact ⟨rfl, rfl, copy_files_success dest pre fs h1,
    copy_files_dest_present dest pre fs h1⟩

/-- Closed witness for C8: `s/a.txt` and `t/a.txt` both land on
`/dst/a.txt`; the later content wins and the call returns `True`. -/
theorem copy_files_basename_collision_witness :
    (∀ f ∈ ([] ++ (⟨"s/a.txt", 1, none, "n", false⟩ : File) :: [] ++
        (⟨"t/a.txt", 1, none, "n", false⟩ : File) :: ([] : List File)),
      (fsLookup [("s/a.txt", [1]), ("t/a.txt", [2])] f.path).isSome = true) ∧
    (∀ f ∈ ([] ++ (⟨"s/a.txt", 1, none, "n", false⟩ : File) :: [] ++
        (⟨"t/a.txt", 1, none, "n", false⟩ : File) :: ([] : List File)),
      ∀ g ∈ ([] ++ (⟨"s/a.txt", 1, none, "n", false⟩ : File) :: [] ++
        (⟨"t/a.txt", 1, none, "n", false⟩ : File) :: ([] : List File)),
      destPathOf "/dst" g ≠ f.path) ∧
    path_basename "s/a.txt" = path_basename "t/a.txt" ∧
    ("s/a.txt" : String) ≠ "t/a.txt" ∧
    (∀ g ∈ ([] : List File), path_basename g.path ≠ path_basename "t/a.txt") ∧
    (destPathOf "/dst" ⟨"s/a.txt", 1, none, "n", false⟩ =
        destPathOf "/dst" ⟨"t/a.txt", 1, none, "n", false⟩ ∧
      (copy_files [("s/a.txt", [1]), ("t/a.txt", [2])]
        ([] ++ (⟨"s/a.txt", 1, none, "n", false⟩ : File) :: [] ++
          (⟨"t/a.txt", 1, none, "n", false⟩ : File) :: ([] : List File)) "/dst").2 = true ∧
      fsLookup (copy_files [("s/a.txt", [1]), ("t/a.txt", [2])]
          ([] ++ (⟨"s/a.txt", 1, none, "n", false⟩ : File) :: [] ++
            (⟨"t/a.txt", 1, none, "n", false⟩ : File) :: ([] : List File)) "/dst").1
          (destPathOf "/dst" ⟨"t/a.txt", 1, none, "n", false⟩) =
        fsLookup [("s/a.txt", [1]), ("t/a.txt", [2])] "t/a.txt") :=
  ⟨by decide, by decide, by decide, by decide, by decide,
    copy_files_basename_collision [("s/a.txt", [1]), ("t/a.txt", [2])] "/dst"
      [] [] [] ⟨"s/a.txt", 1, none, "n", false⟩ ⟨"t/a.txt", 1, none, "n", false⟩
      (by decide) (by decide) (by decide) (by decide) (by decide)⟩

/-- Closed witness for C9: the second file's source is missing, so the call
returns `False` while the first file's copy stays at `/dst/a.txt`. -/
theorem copy_files_not_atomic_witness :
    (∀ f ∈ ([⟨"s/a.txt", 1, none, "n", false⟩] : List File),
      (fsLookup [("s/a.txt", [1])] f.path).isSome = true) ∧
    fsLookup [("s/a.txt", [1])] "missing" = none ∧
    (∀ g ∈ ([⟨"s/a.txt", 1, none, "n", false⟩] : List File),
      destPathOf "/dst" g ≠ "missing") ∧
    ((copy_files [("s/a.txt", [1])]
        ([⟨"s/a.txt", 1, none, "n", false⟩] ++ (⟨"missing", 1, none, "n", false⟩ : File)
          :: ([] : List File)) "/dst").2 = false ∧
      (copy_files [("s/a.txt", [1])]
        ([⟨"s/a.txt", 1, none, "n", false⟩] ++ (⟨"missing", 1, none, "n", false⟩ : File)
          :: ([] : List File)) "/dst").1 =
        (copy_files [("s/a.txt", [1])] [⟨"s/a.txt", 1, none, "n", false⟩] "/dst").1 ∧
      (copy_files [("s/a.txt", [1])] [⟨"s/a.txt", 1, none, "n", false⟩] "/dst").2 = true ∧
      ∀ f ∈ ([⟨"s/a.txt", 1, none, "n", false⟩] : List File),
        (fsLookup (copy_files [("s/a.txt", [1])]
            ([⟨"s/a.txt", 1, none, "n", false⟩] ++ (⟨"missing", 1, none, "n", false⟩ : File)
              :: ([] : List File)) "/dst").1 (destPathOf "/dst" f)).isSome = true) :=
  ⟨by decide, by decide, by decide,
    copy_files_not_atomic [("s/a.txt", [1])] "/dst" [⟨"s/a.txt", 1, none, "n", false⟩]
      [] ⟨"missing", 1, none, "n", false⟩ (by decide) (by decide) (by decide)⟩

end Salvage
